import Mathlib

/-!
Verification development for the `file-renamer` repository
(`src/index.js` and `src/advanced-rules.js`).

The JavaScript sources are embedded shallowly: pure string manipulation is
translated to Lean functions on `String`/`List Char`, the mutable `Set` of
seen names becomes a `Finset String`, the mutable plan object is threaded as
explicit state through a fold, and code that can throw is modelled in
`Except String`.  Host primitives of the JavaScript runtime (the `RegExp`
constructor, `fs.statSync`, `path.dirname`/`path.join`) are modelled as
explicit parameters or small faithful functions, as documented at each
definition.
-/

namespace FileRenamer

/-! ## Host-primitive models -/

/-- Model of the JavaScript `RegExp` host constructor together with
`String.prototype.replace` on a global regex.  `compile pat` is `none` when
`new RegExp(pat, 'g')` would throw a `SyntaxError`, and otherwise yields the
function taking a replacement string and an input string to the result of
replacing every match.  The repository never defines a regex engine of its
own; it only calls this host facility, so the embedding is parameterized
over it. -/
structure RegexEngine where
  compile : String → Option (String → String → String)

/-- Replace every (non-overlapping, leftmost) occurrence of `pat`; this is
the behaviour of a global regex built from a plain literal pattern.  The
fuel argument (instantiated with the input length, which bounds the number
of scanning steps for a nonempty pattern) makes the recursion structural. -/
def replaceAllAux (pat repl : List Char) : Nat → List Char → List Char
  | _, [] => []
  | 0, s => s
  | fuel + 1, a :: s =>
    if pat.isPrefixOf (a :: s) then
      repl ++ replaceAllAux pat repl fuel ((a :: s).drop pat.length)
    else a :: replaceAllAux pat repl fuel s

/-- Global replacement of a literal pattern (identity on the degenerate
empty pattern, which no input below uses). -/
def jsReplaceAll (s pat repl : String) : String :=
  if pat.data.isEmpty then s
  else ⟨replaceAllAux pat.data repl.data s.data.length s.data⟩

/-- Concrete `RegexEngine` instance covering the inputs used in this file:
patterns that are plain literal strings (no metacharacters) behave as
global literal replacement, and the pattern `"("` fails to compile, exactly
as `new RegExp("(")` throws `SyntaxError: Invalid regular expression: /(/:
Unterminated group` in the JavaScript runtime. -/
def demoEngine : RegexEngine where
  compile pat :=
    if pat = "(" then none
    else some (fun replacement input => jsReplaceAll input pat replacement)

/-- JavaScript `String.prototype.replace` with a *string* (not regex) first
argument: only the first occurrence of `pattern` is replaced.  An empty
pattern matches at position 0 (`"abc".replace("", "x") = "xabc"`). -/
def replaceFirstAux (pat repl : List Char) : List Char → List Char
  | [] => []
  | c :: cs =>
    if pat.isPrefixOf (c :: cs) then repl ++ (c :: cs).drop pat.length
    else c :: replaceFirstAux pat repl cs

/-- String-level wrapper for `replaceFirstAux`; see there. -/
def jsReplaceFirst (s pat repl : String) : String :=
  if pat.data.isEmpty then repl ++ s
  else ⟨replaceFirstAux pat.data repl.data s.data⟩

/-- JavaScript `String.prototype.padStart(targetLength, pad)` for a
single-character pad string. -/
def padStart (s : String) (targetLength : Nat) (pad : Char) : String :=
  ⟨List.replicate (targetLength - s.data.length) pad ++ s.data⟩

/-- JavaScript `String(n).slice(-2)`: the last two characters (the whole
string when it is shorter). -/
def sliceLast2 (s : String) : String :=
  ⟨s.data.drop (s.data.length - 2)⟩

/-- Node's `path.extname`/`path.basename(p, ext)` pair as used throughout the
sources, specialised to inputs that are plain file names (no `/`): the name
is split at the last `.`, except that a `.` in position 0 and the special
name `".."` yield an empty extension.  `splitExt s = (name, ext)` with
`name = path.basename(s, path.extname(s))` and `ext = path.extname(s)`,
so `name ++ ext = s`. -/
def splitExt (s : String) : String × String :=
  if s = ".." then (s, "") else
  match s.data.reverse.findIdx? (fun c => c == '.') with
  | none => (s, "")
  | some j =>
    let i := s.data.length - 1 - j
    if i = 0 then (s, "")
    else (⟨s.data.take i⟩, ⟨s.data.drop i⟩)

/-- Node's `path.dirname` for POSIX paths (normalization of multiple
slashes is elided; no claim inspects the produced directory). -/
def dirname (p : String) : String :=
  match p.data.reverse.findIdx? (fun c => c == '/') with
  | none => "."
  | some j =>
    let i := p.data.length - 1 - j
    if i = 0 then "/" else ⟨p.data.take i⟩

/-- Node's `path.join` restricted to two components (normalization elided;
no claim inspects the produced path). -/
def pathJoin (a b : String) : String :=
  if a = "" then b
  else if a.endsWith "/" then a ++ b
  else a ++ "/" ++ b

/-- JavaScript `Date` as observed by the sources: the values of the getters
used by `formatDate` (`month` is `getMonth() + 1`, as the source always adds
one), plus the numeric epoch value used when dates are compared by
subtraction in `sortByDate`. -/
structure JsDate where
  year : Nat
  month : Nat
  day : Nat
  hour : Nat
  minute : Nat
  second : Nat
  epochMs : Int
deriving DecidableEq

/-- Result of `fs.statSync` as consumed by the sources: byte size, the three
timestamps, with `birthtime` optional (falsy on filesystems without birth
time, which the source guards with `stats.birthtime || stats.mtime`). -/
structure FileStats where
  size : Nat
  mtime : JsDate
  atime : JsDate
  birthtime : Option JsDate
deriving DecidableEq

/-- The filesystem as seen through `fs.statSync`: `none` means the call
throws (`ENOENT`). -/
def FsEnv : Type := String → Option FileStats

/-- The empty filesystem: every `stat` fails. -/
def emptyEnv : FsEnv := fun _ => none

/-! ## Data model (src/advanced-rules.js, src/index.js) -/

/-- File record produced by `getFiles` in `src/index.js` and consumed by the
planning core. -/
structure FileRec where
  name : String
  path : String
  relativePath : String
deriving DecidableEq

/-- The `dateType` strings accepted by `getFileDate`.  Any other string
falls into the `default:` branch of the source's `switch`, which behaves
like `modify`, so the three constructors are exhaustive for behaviour. -/
inductive DateType
  | modify
  | create
  | access
deriving DecidableEq

/-- The `position` strings accepted by `renameByDate` (`'prefix'`/`'suffix'`);
the source's `default:` branch coincides with the prefix branch, so two
constructors are exhaustive for behaviour. -/
inductive DatePosition
  | pre
  | suf
deriving DecidableEq

/-- The `strategy` strings accepted by `resolveConflict`.  Any string other
than `'skip'`/`'overwrite'` reaches the trailing rename code path, so
`rename` also stands for every unrecognized strategy string. -/
inductive ConflictStrategy
  | rename
  | skip
  | overwrite
deriving DecidableEq

/-- Return value of `resolveConflict`. -/
structure Resolution where
  filename : String
  conflict : Bool
  resolved : Bool
deriving DecidableEq

/-- Options object passed to `renameByDate`; `none` models an absent
(`undefined`) property, for which the source's destructuring defaults
apply. -/
structure DateOptions where
  dateType : Option DateType
  format : Option String
  position : Option DatePosition
  separator : Option String

/-- The `sequence` directive of a rename rule in `src/index.js`. -/
structure SequenceSpec where
  start : Nat
  padding : Nat
  template : Option String

/-- The case modes of `renameRule` (`'upper'`/`'lower'`/`'title'`); other
strings fall through the `switch` unchanged, which `none` at the rule level
also covers. -/
inductive CaseMode
  | upper
  | lower
  | title
deriving DecidableEq

/-- The rule object consumed by `renameRule` in `src/index.js`.  The source
fields `prefix` and `case` are Lean keywords and are embedded as `pre` and
`caseMode`.  `none` models an absent or `undefined` field. -/
structure Rule where
  replace : Option (List (String × String))
  pre : Option String
  suffix : Option String
  sequence : Option SequenceSpec
  caseMode : Option CaseMode

/-- A rule object with every field absent: `renameRule(f, {})`. -/
def emptyRule : Rule := ⟨none, none, none, none, none⟩

/-- Options object consumed by `generateRenamePlan`. -/
structure PlanOptions where
  useDate : Bool
  dateType : Option DateType
  dateFormat : Option String
  datePosition : Option DatePosition
  regexReplace : Option (List (String × String))
  conflictStrategy : Option ConflictStrategy

/-- One entry of `plan.renames`. -/
structure RenameEntry where
  oldName : String
  newName : String
  oldPath : String
  newPath : String
deriving DecidableEq

/-- One entry of `plan.errors`. -/
structure RenameError where
  file : String
  message : String
deriving DecidableEq

/-- The rename plan assembled by `generateRenamePlan`. -/
structure Plan where
  originalFiles : Nat
  renamedFiles : Nat
  skippedFiles : Nat
  errorFiles : Nat
  renames : List RenameEntry
  errors : List RenameError
deriving DecidableEq

/-! ## regexReplace, dates, formatting (src/advanced-rules.js) -/

/-- `regexReplace(filename, patterns)` from `src/advanced-rules.js` lines
9-22: each `[pattern, replacement]` entry is applied in iteration order with
a fresh global regex; a pattern whose compilation throws is skipped (the
source logs a `console.warn`, a side effect outside the value model) and the
loop continues with the remaining patterns. -/
def regexReplace (E : RegexEngine) (filename : String)
    (patterns : List (String × String)) : String :=
  patterns.foldl
    (fun result pr =>
      match E.compile pr.1 with
      | some re => re pr.2 result
      | none => result)
    filename

/-- `getFileDate(filePath, dateType)` from `src/advanced-rules.js` lines
30-42; `fs.statSync` throwing on a missing path is the `Except.error`
case, and `stats.birthtime || stats.mtime` is `Option.getD`. -/
def getFileDate (env : FsEnv) (filePath : String) (dateType : DateType) :
    Except String JsDate :=
  match env filePath with
  | none => Except.error ("ENOENT: no such file or directory, stat " ++ filePath)
  | some stats =>
    match dateType with
    | .create => Except.ok (stats.birthtime.getD stats.mtime)
    | .access => Except.ok stats.atime
    | .modify => Except.ok stats.mtime

/-- `formatDate(date, format)` from `src/advanced-rules.js` lines 50-66.
Each `.replace('TOKEN', value)` call uses a string pattern and therefore
replaces only the first occurrence of the token in the current partially
substituted string, in source order `YYYY, YY, MM, DD, HH, mm, ss`. -/
def formatDate (date : JsDate) (format : String) : String :=
  let year := Nat.repr date.year
  let month := padStart (Nat.repr date.month) 2 '0'
  let day := padStart (Nat.repr date.day) 2 '0'
  let hour := padStart (Nat.repr date.hour) 2 '0'
  let minute := padStart (Nat.repr date.minute) 2 '0'
  let second := padStart (Nat.repr date.second) 2 '0'
  jsReplaceFirst
    (jsReplaceFirst
      (jsReplaceFirst
        (jsReplaceFirst
          (jsReplaceFirst
            (jsReplaceFirst
              (jsReplaceFirst format "YYYY" year)
              "YY" (sliceLast2 year))
            "MM" month)
          "DD" day)
        "HH" hour)
      "mm" minute)
    "ss" second

/-- `renameByDate(filename, filePath, options)` from `src/advanced-rules.js`
lines 75-96; the destructuring defaults of the source are `Option.getD`, and
the `switch` on `position` has a `default:` equal to the prefix branch. -/
def renameByDate (env : FsEnv) (filename filePath : String)
    (options : DateOptions) : Except String String :=
  let dateType := options.dateType.getD .modify
  let format := options.format.getD "YYYY-MM-DD"
  let position := options.position.getD .pre
  let separator := options.separator.getD "_"
  match getFileDate env filePath dateType with
  | .error e => Except.error e
  | .ok date =>
    let dateStr := formatDate date format
    let ne := splitExt filename
    match position with
    | .pre => Except.ok (dateStr ++ separator ++ ne.1 ++ ne.2)
    | .suf => Except.ok (ne.1 ++ separator ++ dateStr ++ ne.2)

/-! ## Conflict resolution (src/advanced-rules.js lines 155-181) -/

/-- The name synthesized by the rename strategy: `` `${name}_${counter}${ext}` ``. -/
def synthName (name ext : String) (counter : Nat) : String :=
  name ++ "_" ++ Nat.repr counter ++ ext

/-- The `do … while (existingNames.has(newFilename))` loop of
`resolveConflict`.  The source loop always terminates because the finitely
many existing names cannot contain every candidate; the fuel argument makes
that executable, and `resolveConflict` supplies fuel `existingNames.card + 1`,
which the lemmas below show is never exhausted. -/
def renameLoop (name ext : String) (existingNames : Finset String) :
    Nat → Nat → String
  | counter, 0 => synthName name ext counter
  | counter, fuel + 1 =>
    if synthName name ext counter ∈ existingNames then
      renameLoop name ext existingNames (counter + 1) fuel
    else synthName name ext counter

/-- `resolveConflict(filename, existingNames, strategy)` from
`src/advanced-rules.js` lines 155-181. -/
def resolveConflict (filename : String) (existingNames : Finset String)
    (strategy : ConflictStrategy) : Resolution :=
  if filename ∈ existingNames then
    match strategy with
    | .skip => ⟨filename, true, false⟩
    | .overwrite => ⟨filename, true, true⟩
    | .rename =>
      let ne := splitExt filename
      ⟨renameLoop ne.1 ne.2 existingNames 1 (existingNames.card + 1), true, true⟩
  else ⟨filename, false, true⟩

/-- `resolveConflict` with the strategy argument possibly omitted: the
source's default parameter `strategy = 'rename'` applies when the caller
passes `undefined`. -/
def resolveConflictOpt (filename : String) (existingNames : Finset String)
    (strategy : Option ConflictStrategy) : Resolution :=
  resolveConflict filename existingNames (strategy.getD .rename)

/-! ## Plan generation (src/advanced-rules.js lines 189-248) -/

/-- The body of the `try` block of `generateRenamePlan` up to conflict
resolution: the optional date rule (which can throw via `fs.statSync`)
followed by the optional regex rule (total). -/
def computeNewName (E : RegexEngine) (env : FsEnv) (options : PlanOptions)
    (file : FileRec) : Except String String :=
  let afterDate : Except String String :=
    if options.useDate then
      renameByDate env file.name file.path
        ⟨options.dateType, options.dateFormat, options.datePosition, none⟩
    else Except.ok file.name
  match afterDate with
  | .error e => Except.error e
  | .ok n =>
    match options.regexReplace with
    | some patterns => Except.ok (regexReplace E n patterns)
    | none => Except.ok n

/-- The initial plan object of `generateRenamePlan`. -/
def planInit (files : List FileRec) : Plan :=
  ⟨files.length, 0, 0, 0, [], []⟩

/-- One iteration of the `for (const file of files)` loop of
`generateRenamePlan`: the thrown-error branch increments `errorFiles`, an
unresolved conflict increments `skippedFiles`, a changed name is pushed onto
`renames` and added to `existingNames`, and an unchanged name leaves the
state untouched. -/
def planStep (E : RegexEngine) (env : FsEnv) (options : PlanOptions)
    (st : Plan × Finset String) (file : FileRec) : Plan × Finset String :=
  match computeNewName E env options file with
  | .error msg =>
    ({ st.1 with
        errorFiles := st.1.errorFiles + 1,
        errors := st.1.errors ++ [⟨file.name, msg⟩] }, st.2)
  | .ok newName =>
    let resolution := resolveConflictOpt newName st.2 options.conflictStrategy
    if resolution.resolved = false then
      ({ st.1 with skippedFiles := st.1.skippedFiles + 1 }, st.2)
    else if resolution.filename ≠ file.name then
      ({ st.1 with
          renamedFiles := st.1.renamedFiles + 1,
          renames := st.1.renames ++
            [⟨file.name, resolution.filename, file.path,
              pathJoin (dirname file.path) resolution.filename⟩] },
       insert resolution.filename st.2)
    else (st.1, st.2)

/-- `generateRenamePlan(files, options)` from `src/advanced-rules.js` lines
189-248, as a fold of `planStep` over the file list starting from the empty
plan and the empty `existingNames` set. -/
def generateRenamePlan (E : RegexEngine) (env : FsEnv) (files : List FileRec)
    (options : PlanOptions) : Plan :=
  (files.foldl (planStep E env options) (planInit files, (∅ : Finset String))).1

/-! ## renameRule (src/index.js lines 60-114) -/

/-- JavaScript `\w` (`[A-Za-z0-9_]`). -/
def isWordChar (c : Char) : Bool :=
  c.isAlpha || c.isDigit || c == '_'

/-- The global replace `result.replace(/\w\S*\/g, txt => txt.charAt(0).
toUpperCase() + txt.substr(1).toLowerCase())` of the `'title'` case branch:
scanning left to right, a match starts at a word character and greedily
extends over all following non-whitespace characters; its first character is
uppercased and the rest lowercased, and characters outside matches are kept
unchanged. -/
def titleCaseAux : List Char → List Char
  | [] => []
  | c :: cs =>
    if isWordChar c then
      c.toUpper :: ((cs.takeWhile (fun x => !x.isWhitespace)).map Char.toLower
        ++ titleCaseAux (cs.dropWhile (fun x => !x.isWhitespace)))
    else
      c :: titleCaseAux cs
termination_by l => l.length
decreasing_by
  · simp only [List.length_cons]
    exact Nat.lt_succ_of_le (List.dropWhile_sublist _).length_le
  · simp only [List.length_cons]
    exact Nat.lt_succ_self _

/-- String-level title-casing; see `titleCaseAux`. -/
def titleCase (s : String) : String :=
  ⟨titleCaseAux s.data⟩

/-- The literal-substitution loop of `renameRule` (`src/index.js` lines
63-68): each `result.replace(new RegExp(from, 'g'), to)` is evaluated in
iteration order, and — unlike `regexReplace` in `src/advanced-rules.js` —
there is no `try`/`catch`, so a pattern whose compilation throws propagates
the error to the caller of `renameRule`. -/
def applyReplaceAll (E : RegexEngine) :
    String → List (String × String) → Except String String
  | result, [] => Except.ok result
  | result, (p, t) :: rest =>
    match E.compile p with
    | some re => applyReplaceAll E (re t result) rest
    | none =>
      Except.error ("Invalid regular expression: /" ++ p ++ "/: Unterminated group")

/-- `renameRule(filename, rule)` from `src/index.js` lines 60-114.  The
JavaScript truthiness tests `if (rule.prefix)` / `if (rule.suffix)` /
`if (template)` make an empty string behave like an absent field. -/
def renameRule (E : RegexEngine) (filename : String) (rule : Rule) :
    Except String String :=
  let r0 : Except String String :=
    match rule.replace with
    | some pairs => applyReplaceAll E filename pairs
    | none => Except.ok filename
  match r0 with
  | .error e => Except.error e
  | .ok s0 =>
    let s1 :=
      match rule.pre with
      | some p => if p = "" then s0 else p ++ s0
      | none => s0
    let s2 :=
      match rule.suffix with
      | some sfx =>
        if sfx = "" then s1
        else
          let ne := splitExt s1
          ne.1 ++ sfx ++ ne.2
      | none => s1
    let s3 :=
      match rule.sequence with
      | some sq =>
        let ne := splitExt s2
        let numStr := padStart (Nat.repr sq.start) sq.padding '0'
        match sq.template with
        | some tpl =>
          if tpl = "" then numStr ++ "_" ++ ne.1 ++ ne.2
          else jsReplaceFirst (jsReplaceFirst tpl "{n}" numStr) "{name}" ne.1 ++ ne.2
        | none => numStr ++ "_" ++ ne.1 ++ ne.2
      | none => s2
    let s4 :=
      match rule.caseMode with
      | some .upper => s3.map Char.toUpper
      | some .lower => s3.map Char.toLower
      | some .title => titleCase s3
      | none => s3
    Except.ok s4

/-! ## Sorters (src/advanced-rules.js lines 104-146)

`Array.prototype.sort` mutates the receiver in place and returns the same
array object.  To state that, arrays live in an explicit store of array
slots, a caller's array is a slot index, and each sorter maps the store to
an updated store together with the returned reference.  The sort itself is
modelled by the stable `List.mergeSort` (the ECMAScript specification
requires `Array.prototype.sort` to be stable). -/

/-- Heap of array slots; a JavaScript array value is an index into it. -/
def Store : Type := List (List FileRec)

/-- Contents of the array slot `r`. -/
def Store.read (σ : Store) (r : Nat) : List FileRec :=
  (σ.get? r).getD []

/-- Comparator of `sortByName` (lines 135-146): case-insensitive comparison
of names (`localeCompare` on lowercased names, which on the ASCII file names
in scope is lexicographic order), with `order = 'desc'` swapping the
operands. -/
def nameLe (desc : Bool) (a b : FileRec) : Bool :=
  if desc then decide (b.name.map Char.toLower ≤ a.name.map Char.toLower)
  else decide (a.name.map Char.toLower ≤ b.name.map Char.toLower)

/-- `sortByName(files, order)`: sorts the received array in place and
returns the same array object. -/
def sortByName (σ : Store) (r : Nat) (desc : Bool) : Store × Nat :=
  (σ.set r ((σ.read r).mergeSort (nameLe desc)), r)

/-- Comparator key of `sortBySize` (lines 104-111): the stat size. -/
def sizeLe (env : FsEnv) (desc : Bool) (a b : FileRec) : Bool :=
  let ka := ((env a.path).map FileStats.size).getD 0
  let kb := ((env b.path).map FileStats.size).getD 0
  if desc then decide (kb ≤ ka) else decide (ka ≤ kb)

/-- `sortBySize(files, order)`: stats every file (a missing file makes
`statSync` throw out of the comparator, modelled as an error with the store
unchanged), then sorts the received array in place by size and returns the
same array object. -/
def sortBySize (env : FsEnv) (σ : Store) (r : Nat) (desc : Bool) :
    Except String (Store × Nat) :=
  if (σ.read r).all (fun f => (env f.path).isSome) then
    Except.ok (σ.set r ((σ.read r).mergeSort (sizeLe env desc)), r)
  else
    Except.error "ENOENT: no such file or directory, stat"

/-- Comparator key of `sortByDate` (lines 120-127): the numeric value of the
configured date (`dateA - dateB` coerces the `Date`s to epoch
milliseconds). -/
def dateLe (env : FsEnv) (dateType : DateType) (desc : Bool)
    (a b : FileRec) : Bool :=
  let key := fun (f : FileRec) =>
    match getFileDate env f.path dateType with
    | .ok d => d.epochMs
    | .error _ => 0
  if desc then decide (key b ≤ key a) else decide (key a ≤ key b)

/-- `sortByDate(files, dateType, order)`: like `sortBySize` with the date
key. -/
def sortByDate (env : FsEnv) (σ : Store) (r : Nat) (dateType : DateType)
    (desc : Bool) : Except String (Store × Nat) :=
  if (σ.read r).all (fun f => (env f.path).isSome) then
    Except.ok (σ.set r ((σ.read r).mergeSort (dateLe env dateType desc)), r)
  else
    Except.error "ENOENT: no such file or directory, stat"

/-! ## Groundwork: decimal printing (`Nat.repr`)

The rename strategy of `resolveConflict` synthesizes names with a decimal
counter and `formatDate` substitutes decimal values, so injectivity of the
decimal printer and the fact that it emits only digit characters are needed
below. -/

lemma toDigitsCore_eq_digits (f : Nat) :
    ∀ (n : Nat) (ds : List Char), n < 10 ^ f → n ≠ 0 →
      Nat.toDigitsCore 10 f n ds =
        ((Nat.digits 10 n).map Nat.digitChar).reverse ++ ds := by
  induction f with
  | zero =>
    intro n ds h hn
    simp only [pow_zero, Nat.lt_one_iff] at h
    exact absurd h hn
  | succ f ih =>
    intro n ds h hn
    rw [Nat.toDigitsCore]
    rw [Nat.digits_def' (b := 10) (by norm_num) (Nat.pos_of_ne_zero hn)]
    by_cases hq : n / 10 = 0
    · rw [if_pos hq, hq, Nat.digits_zero]
      simp
    · rw [if_neg hq]
      rw [ih (n / 10) _ (Nat.nat_repr_len_aux n 10 f (by norm_num) h) hq]
      simp

lemma toDigits_eq_digits (n : Nat) (hn : n ≠ 0) :
    Nat.toDigits 10 n = ((Nat.digits 10 n).map Nat.digitChar).reverse := by
  have h1 : n < 10 ^ (n + 1) :=
    lt_of_lt_of_le (Nat.lt_pow_self (by norm_num) n)
      (Nat.pow_le_pow_right (by norm_num) (Nat.le_succ n))
  simpa using toDigitsCore_eq_digits (n + 1) n [] h1 hn

lemma repr_data_eq (n : Nat) (hn : n ≠ 0) :
    (Nat.repr n).data = ((Nat.digits 10 n).map Nat.digitChar).reverse := by
  show (Nat.toDigits 10 n).asString.data = _
  rw [toDigits_eq_digits n hn]
  rfl

lemma digitChar_isDigit {d : Nat} (h : d < 10) :
    (Nat.digitChar d).isDigit = true := by
  have hall : ∀ m, m < 10 → (Nat.digitChar m).isDigit = true := by decide
  exact hall d h

lemma digitChar_inj {a b : Nat} (ha : a < 10) (hb : b < 10)
    (h : Nat.digitChar a = Nat.digitChar b) : a = b := by
  have hall : ∀ x, x < 10 → ∀ y, y < 10 →
      Nat.digitChar x = Nat.digitChar y → x = y := by decide
  exact hall a ha b hb h

lemma repr_chars_isDigit (n : Nat) :
    ∀ c ∈ (Nat.repr n).data, c.isDigit = true := by
  rcases eq_or_ne n 0 with rfl | hn
  · intro c hc
    have : (Nat.repr 0).data = ['0'] := rfl
    rw [this] at hc
    simp only [List.mem_singleton] at hc
    subst hc
    rfl
  · rw [repr_data_eq n hn]
    intro c hc
    rw [List.mem_reverse, List.mem_map] at hc
    obtain ⟨d, hd, rfl⟩ := hc
    exact digitChar_isDigit (Nat.digits_lt_base (by norm_num) hd)

lemma map_digitChar_inj :
    ∀ (l1 l2 : List Nat), (∀ x ∈ l1, x < 10) → (∀ x ∈ l2, x < 10) →
      l1.map Nat.digitChar = l2.map Nat.digitChar → l1 = l2 := by
  intro l1
  induction l1 with
  | nil =>
    intro l2 _ _ h
    cases l2 with
    | nil => rfl
    | cons b t => simp at h
  | cons a t ih =>
    intro l2 h1 h2 h
    cases l2 with
    | nil => simp at h
    | cons b t2 =>
      simp only [List.map_cons, List.cons.injEq] at h
      have hab : a = b :=
        digitChar_inj (h1 a (by simp)) (h2 b (by simp)) h.1
      have ht : t = t2 :=
        ih t2 (fun x hx => h1 x (by simp [hx])) (fun x hx => h2 x (by simp [hx])) h.2
      rw [hab, ht]

lemma repr_injective : Function.Injective Nat.repr := by
  intro a b h
  have hd : (Nat.repr a).data = (Nat.repr b).data := by rw [h]
  have key : ∀ m : Nat, m ≠ 0 → (Nat.repr m).data = ['0'] → False := by
    intro m hm hrepr
    rw [repr_data_eq m hm] at hrepr
    have h2 : (Nat.digits 10 m).map Nat.digitChar = ['0'] := by
      have := congrArg List.reverse hrepr
      simpa using this
    have hdig : Nat.digits 10 m = [0] := by
      cases hcase : Nat.digits 10 m with
      | nil => rw [hcase] at h2; simp at h2
      | cons d t =>
        rw [hcase] at h2
        simp only [List.map_cons, List.cons.injEq, List.map_eq_nil_iff] at h2
        have hd10 : d < 10 :=
          Nat.digits_lt_base (by norm_num) (by rw [hcase]; simp)
        have : d = 0 := digitChar_inj hd10 (by norm_num) h2.1
        rw [this, h2.2]
    have := Nat.ofDigits_digits 10 m
    rw [hdig] at this
    simp [Nat.ofDigits] at this
    omega
  rcases eq_or_ne a 0 with rfl | ha
  · rcases eq_or_ne b 0 with rfl | hb
    · rfl
    · exact absurd hd.symm (fun hc => key b hb hc)
  · rcases eq_or_ne b 0 with rfl | hb
    · exact absurd hd (fun hc => key a ha hc)
    · rw [repr_data_eq a ha, repr_data_eq b hb] at hd
      have hm : (Nat.digits 10 a).map Nat.digitChar =
          (Nat.digits 10 b).map Nat.digitChar := by
        have := congrArg List.reverse hd
        simpa using this
      have hdig : Nat.digits 10 a = Nat.digits 10 b :=
        map_digitChar_inj _ _
          (fun x hx => Nat.digits_lt_base (by norm_num) hx)
          (fun x hx => Nat.digits_lt_base (by norm_num) hx) hm
      have := congrArg (Nat.ofDigits 10) hdig
      rwa [Nat.ofDigits_digits, Nat.ofDigits_digits] at this

/-! ## Groundwork: the rename-strategy search loop -/

lemma synthName_injective (name ext : String) :
    Function.Injective (synthName name ext) := by
  intro a b h
  unfold synthName at h
  have hd := congrArg String.data h
  simp only [String.data_append] at hd
  have h1 := List.append_cancel_right hd
  have h3 := List.append_cancel_left h1
  have : Nat.repr a = Nat.repr b := by
    cases ha : Nat.repr a
    cases hb : Nat.repr b
    rw [ha, hb] at h3
    exact congrArg String.mk (by simpa using h3)
  exact repr_injective this

lemma exists_synth_not_mem (name ext : String) (s : Finset String) :
    ∃ j, j < s.card + 1 ∧ synthName name ext (1 + j) ∉ s := by
  by_contra hall
  push_neg at hall
  have hinj : Function.Injective (fun j : Nat => synthName name ext (1 + j)) := by
    intro a b hab
    have := synthName_injective name ext hab
    omega
  have hsub : (Finset.range (s.card + 1)).image
      (fun j => synthName name ext (1 + j)) ⊆ s := by
    intro x hx
    rw [Finset.mem_image] at hx
    obtain ⟨j, hj, rfl⟩ := hx
    exact hall j (Finset.mem_range.mp hj)
  have hcard : ((Finset.range (s.card + 1)).image
      (fun j => synthName name ext (1 + j))).card = s.card + 1 := by
    rw [Finset.card_image_of_injective _ hinj, Finset.card_range]
  have := Finset.card_le_card hsub
  omega

lemma renameLoop_spec (name ext : String) (s : Finset String) :
    ∀ (fuel counter : Nat),
      (∃ j, j < fuel ∧ synthName name ext (counter + j) ∉ s) →
      ∃ k, renameLoop name ext s counter fuel = synthName name ext k ∧
        counter ≤ k ∧ synthName name ext k ∉ s ∧
        ∀ i, counter ≤ i → i < k → synthName name ext i ∈ s := by
  intro fuel
  induction fuel with
  | zero =>
    intro counter h
    obtain ⟨j, hj, _⟩ := h
    omega
  | succ fuel ih =>
    intro counter h
    rw [renameLoop]
    by_cases hc : synthName name ext counter ∈ s
    · rw [if_pos hc]
      have h' : ∃ j, j < fuel ∧ synthName name ext (counter + 1 + j) ∉ s := by
        obtain ⟨j, hj, hmem⟩ := h
        rcases Nat.eq_zero_or_pos j with rfl | hpos
        · rw [Nat.add_zero] at hmem
          exact absurd hc hmem
        · refine ⟨j - 1, by omega, ?_⟩
          have : counter + 1 + (j - 1) = counter + j := by omega
          rw [this]
          exact hmem
      obtain ⟨k, hk, hle, hnot, hmin⟩ := ih (counter + 1) h'
      refine ⟨k, hk, by omega, hnot, fun i h1 h2 => ?_⟩
      rcases Nat.eq_or_lt_of_le h1 with rfl | h1'
      · exact hc
      · exact hmin i h1' h2
    · rw [if_neg hc]
      exact ⟨counter, rfl, Nat.le_refl _, hc, fun i h1 h2 => by omega⟩

lemma resolveConflict_rename_mem (filename : String) (s : Finset String)
    (h : filename ∈ s) :
    ∃ k, 1 ≤ k ∧
      resolveConflict filename s .rename =
        ⟨synthName (splitExt filename).1 (splitExt filename).2 k, true, true⟩ ∧
      synthName (splitExt filename).1 (splitExt filename).2 k ∉ s ∧
      ∀ j, 1 ≤ j → j < k →
        synthName (splitExt filename).1 (splitExt filename).2 j ∈ s := by
  obtain ⟨j0, hj0, hnm⟩ :=
    exists_synth_not_mem (splitExt filename).1 (splitExt filename).2 s
  have hex : ∃ j, j < s.card + 1 ∧
      synthName (splitExt filename).1 (splitExt filename).2 (1 + j) ∉ s :=
    ⟨j0, hj0, hnm⟩
  obtain ⟨k, hk, hle, hnot, hmin⟩ :=
    renameLoop_spec (splitExt filename).1 (splitExt filename).2 s
      (s.card + 1) 1 (by
        obtain ⟨j, hj, hm⟩ := hex
        exact ⟨j, hj, hm⟩)
  refine ⟨k, hle, ?_, hnot, fun j h1 h2 => hmin j h1 h2⟩
  unfold resolveConflict
  rw [if_pos h]
  simp only [Resolution.mk.injEq, and_true]
  exact hk

lemma resolveConflict_not_mem_of_resolved (filename : String)
    (s : Finset String) (strat : ConflictStrategy)
    (hstrat : strat ≠ .overwrite)
    (hres : (resolveConflict filename s strat).resolved = true) :
    (resolveConflict filename s strat).filename ∉ s := by
  by_cases h : filename ∈ s
  · cases strat with
    | overwrite => exact absurd rfl hstrat
    | skip =>
      unfold resolveConflict at hres
      rw [if_pos h] at hres
      simp at hres
    | rename =>
      obtain ⟨k, _, heq, hnot, _⟩ := resolveConflict_rename_mem filename s h
      rw [heq]
      exact hnot
  · unfold resolveConflict
    rw [if_neg h]
    exact h

/-! ## Groundwork: invariants of the planning fold -/

/-- The `newName` column of the accumulated plan state. -/
def planNames (st : Plan × Finset String) : List String :=
  st.1.renames.map RenameEntry.newName

lemma planStep_invariant (E : RegexEngine) (env : FsEnv)
    (options : PlanOptions)
    (hstrat : options.conflictStrategy ≠ some ConflictStrategy.overwrite)
    (st : Plan × Finset String) (file : FileRec)
    (hnd : (planNames st).Nodup) (hsub : ∀ x ∈ planNames st, x ∈ st.2) :
    (planNames (planStep E env options st file)).Nodup ∧
    ∀ x ∈ planNames (planStep E env options st file),
      x ∈ (planStep E env options st file).2 := by
  have hstrat' : options.conflictStrategy.getD .rename ≠ .overwrite := by
    cases hs : options.conflictStrategy with
    | none => simp
    | some s =>
      simp only [Option.getD_some]
      intro hcon
      rw [hcon] at hs
      exact hstrat hs
  unfold planStep
  cases hcn : computeNewName E env options file with
  | error msg =>
    constructor
    · simpa [planNames] using hnd
    · intro x hx
      exact hsub x (by simpa [planNames] using hx)
  | ok newName =>
    simp only []
    by_cases hres : (resolveConflictOpt newName st.2 options.conflictStrategy).resolved = false
    · rw [if_pos hres]
      constructor
      · simpa [planNames] using hnd
      · intro x hx
        exact hsub x (by simpa [planNames] using hx)
    · rw [if_neg hres]
      by_cases hch : (resolveConflictOpt newName st.2 options.conflictStrategy).filename ≠ file.name
      · rw [if_pos hch]
        have hnotmem :
            (resolveConflictOpt newName st.2 options.conflictStrategy).filename ∉ st.2 := by
          apply resolveConflict_not_mem_of_resolved newName st.2 _ hstrat'
          simpa using hres
        constructor
        · simp only [planNames, List.map_append, List.map_cons, List.map_nil]
          rw [List.nodup_append]
          refine ⟨hnd, by simp, ?_⟩
          intro x hx hx2
          simp only [List.mem_cons, List.not_mem_nil, or_false] at hx2
          exact hnotmem (hx2 ▸ hsub x hx)
        · intro x hx
          simp only [planNames, List.map_append, List.map_cons, List.map_nil,
            List.mem_append, List.mem_cons, List.not_mem_nil, or_false] at hx
          rcases hx with hx | hx
          · exact Finset.mem_insert_of_mem (hsub x hx)
          · rw [hx]
            exact Finset.mem_insert_self _ _
      · rw [if_neg hch]
        exact ⟨hnd, hsub⟩

lemma foldl_planStep_nodup (E : RegexEngine) (env : FsEnv)
    (options : PlanOptions)
    (hstrat : options.conflictStrategy ≠ some ConflictStrategy.overwrite) :
    ∀ (files : List FileRec) (st : Plan × Finset String),
      (planNames st).Nodup → (∀ x ∈ planNames st, x ∈ st.2) →
      (planNames (files.foldl (planStep E env options) st)).Nodup := by
  intro files
  induction files with
  | nil =>
    intro st h _
    exact h
  | cons f rest ih =>
    intro st h hsub
    rw [List.foldl_cons]
    obtain ⟨h1, h2⟩ := planStep_invariant E env options hstrat st f h hsub
    exact ih _ h1 h2

lemma planStep_counters (E : RegexEngine) (env : FsEnv)
    (options : PlanOptions) (st : Plan × Finset String) (file : FileRec) :
    (planStep E env options st file).1.renamedFiles +
      (planStep E env options st file).1.skippedFiles +
      (planStep E env options st file).1.errorFiles ≤
      st.1.renamedFiles + st.1.skippedFiles + st.1.errorFiles + 1 ∧
    (planStep E env options st file).1.originalFiles = st.1.originalFiles := by
  unfold planStep
  cases hcn : computeNewName E env options file with
  | error msg =>
    constructor
    · simp
      omega
    · simp
  | ok newName =>
    simp only []
    by_cases hres : (resolveConflictOpt newName st.2 options.conflictStrategy).resolved = false
    · rw [if_pos hres]
      constructor
      · simp
        omega
      · simp
    · rw [if_neg hres]
      by_cases hch : (resolveConflictOpt newName st.2 options.conflictStrategy).filename ≠ file.name
      · rw [if_pos hch]
        constructor
        · simp
          omega
        · simp
      · rw [if_neg hch]
        constructor
        · simp
        · simp

lemma foldl_planStep_counters (E : RegexEngine) (env : FsEnv)
    (options : PlanOptions) :
    ∀ (files : List FileRec) (st : Plan × Finset String),
      (files.foldl (planStep E env options) st).1.renamedFiles +
        (files.foldl (planStep E env options) st).1.skippedFiles +
        (files.foldl (planStep E env options) st).1.errorFiles ≤
        st.1.renamedFiles + st.1.skippedFiles + st.1.errorFiles + files.length ∧
      (files.foldl (planStep E env options) st).1.originalFiles =
        st.1.originalFiles := by
  intro files
  induction files with
  | nil =>
    intro st
    simp
  | cons f rest ih =>
    intro st
    rw [List.foldl_cons]
    obtain ⟨h1, h2⟩ := planStep_counters E env options st f
    obtain ⟨h3, h4⟩ := ih (planStep E env options st f)
    constructor
    · calc _ ≤ _ := h3
        _ ≤ st.1.renamedFiles + st.1.skippedFiles + st.1.errorFiles + 1 + rest.length := by
            omega
        _ = st.1.renamedFiles + st.1.skippedFiles + st.1.errorFiles + (f :: rest).length := by
            simp only [List.length_cons]
            omega
    · rw [h4, h2]

lemma planStep_noop (E : RegexEngine) (env : FsEnv) (options : PlanOptions)
    (st : Plan × Finset String) (file : FileRec) (newName : String)
    (hcn : computeNewName E env options file = Except.ok newName)
    (hres : (resolveConflictOpt newName st.2 options.conflictStrategy).resolved = true)
    (hsame : (resolveConflictOpt newName st.2 options.conflictStrategy).filename = file.name) :
    planStep E env options st file = st := by
  unfold planStep
  rw [hcn]
  simp only []
  rw [if_neg (by rw [hres]; simp), if_neg (by rw [hsame]; simp)]

lemma planStep_skip (E : RegexEngine) (env : FsEnv) (options : PlanOptions)
    (st : Plan × Finset String) (file : FileRec) (newName : String)
    (hstrat : options.conflictStrategy = some ConflictStrategy.skip)
    (hcn : computeNewName E env options file = Except.ok newName)
    (hmem : newName ∈ st.2) :
    planStep E env options st file =
      ({ st.1 with skippedFiles := st.1.skippedFiles + 1 }, st.2) := by
  unfold planStep
  rw [hcn]
  simp only []
  have hres : resolveConflictOpt newName st.2 options.conflictStrategy =
      ⟨newName, true, false⟩ := by
    rw [hstrat]
    unfold resolveConflictOpt resolveConflict
    rw [Option.getD_some, if_pos hmem]
  rw [hres]
  simp

/-! ## Groundwork: first-occurrence string replacement -/

lemma replaceFirstAux_not_mem (c : Char) (pt repl : List Char) :
    ∀ s : List Char, c ∉ s → replaceFirstAux (c :: pt) repl s = s := by
  intro s
  induction s with
  | nil => intro _; rfl
  | cons a t ih =>
    intro h
    simp only [List.mem_cons, not_or] at h
    have hca : (c == a) = false := by
      simp [h.1]
    rw [replaceFirstAux, if_neg (by rw [List.isPrefixOf_cons₂, hca]; simp)]
    rw [ih (by simpa using h.2)]

lemma jsReplaceFirst_not_mem (s pat repl : String) (c : Char) (pt : List Char)
    (hp : pat.data = c :: pt) (h : c ∉ s.data) :
    jsReplaceFirst s pat repl = s := by
  unfold jsReplaceFirst
  rw [hp]
  rw [if_neg (by simp)]
  rw [replaceFirstAux_not_mem c pt _ _ h]

lemma replaceFirstAux_patMatch (pat repl s : List Char) (hne : pat ≠ [])
    (h : pat.isPrefixOf s = true) :
    replaceFirstAux pat repl s = repl ++ s.drop pat.length := by
  cases s with
  | nil =>
    cases pat with
    | nil => exact absurd rfl hne
    | cons c pt => simp at h
  | cons a t =>
    rw [replaceFirstAux, if_pos h]

lemma replaceFirstAux_append_left (c : Char) (pt repl : List Char) :
    ∀ (a b : List Char), c ∉ a →
      replaceFirstAux (c :: pt) repl (a ++ b) =
        a ++ replaceFirstAux (c :: pt) repl b := by
  intro a
  induction a with
  | nil => intro b _; rfl
  | cons x t ih =>
    intro b h
    simp only [List.mem_cons, not_or] at h
    have hcx : (c == x) = false := by
      simp [h.1]
    rw [List.cons_append, replaceFirstAux,
      if_neg (by rw [List.isPrefixOf_cons₂, hcx]; simp)]
    rw [ih b (by simpa using h.2)]
    simp

/-- Characters of a zero-padded decimal value: a character that is neither a
digit nor `'0'` does not occur (`'0'` is itself a digit, so non-digits
suffice). -/
lemma not_mem_repr (c : Char) (hc : c.isDigit = false) (n : Nat) :
    c ∉ (Nat.repr n).data := by
  intro hmem
  have := repr_chars_isDigit n c hmem
  rw [hc] at this
  exact Bool.false_ne_true this

lemma not_mem_padStart_repr (c : Char) (hc : c.isDigit = false) (n w : Nat) :
    c ∉ (padStart (Nat.repr n) w '0').data := by
  intro hmem
  unfold padStart at hmem
  simp only [List.mem_append, List.mem_replicate] at hmem
  rcases hmem with ⟨_, hz⟩ | hr
  · rw [hz] at hc
    simp at hc
  · exact not_mem_repr c hc n hr

lemma not_mem_sliceLast2_repr (c : Char) (hc : c.isDigit = false) (n : Nat) :
    c ∉ (sliceLast2 (Nat.repr n)).data := by
  intro hmem
  unfold sliceLast2 at hmem
  exact not_mem_repr c hc n (List.drop_subset _ _ hmem)

/-! ## Groundwork: the title-case scan -/

lemma takeWhile_all (p : Char → Bool) :
    ∀ a : List Char, (∀ x ∈ a, p x = true) → a.takeWhile p = a := by
  intro a
  induction a with
  | nil => intro _; rfl
  | cons x t ih =>
    intro h
    rw [List.takeWhile_cons, if_pos (h x (by simp))]
    rw [ih (fun y hy => h y (by simp [hy]))]

lemma dropWhile_all (p : Char → Bool) :
    ∀ a : List Char, (∀ x ∈ a, p x = true) → a.dropWhile p = [] := by
  intro a
  induction a with
  | nil => intro _; rfl
  | cons x t ih =>
    intro h
    rw [List.dropWhile_cons, if_pos (h x (by simp))]
    exact ih (fun y hy => h y (by simp [hy]))

lemma takeWhile_append_all (p : Char → Bool) :
    ∀ (a b : List Char), (∀ x ∈ a, p x = true) →
      (a ++ b).takeWhile p = a ++ b.takeWhile p := by
  intro a
  induction a with
  | nil => intro b _; rfl
  | cons x t ih =>
    intro b h
    rw [List.cons_append, List.takeWhile_cons, if_pos (h x (by simp))]
    rw [ih b (fun y hy => h y (by simp [hy])), List.cons_append]

lemma dropWhile_append_all (p : Char → Bool) :
    ∀ (a b : List Char), (∀ x ∈ a, p x = true) →
      (a ++ b).dropWhile p = b.dropWhile p := by
  intro a
  induction a with
  | nil => intro b _; rfl
  | cons x t ih =>
    intro b h
    rw [List.cons_append, List.dropWhile_cons, if_pos (h x (by simp))]
    exact ih b (fun y hy => h y (by simp [hy]))

lemma head_dropWhile_false (p : Char → Bool) :
    ∀ (l : List Char) (w : Char) (rest : List Char),
      l.dropWhile p = w :: rest → p w = false := by
  intro l
  induction l with
  | nil => intro w rest h; simp at h
  | cons a t ih =>
    intro w rest h
    rw [List.dropWhile_cons] at h
    by_cases hp : p a = true
    · rw [if_pos hp] at h
      exact ih w rest h
    · rw [if_neg hp] at h
      injection h with h1 _
      rw [← h1]
      exact Bool.not_eq_true _ |>.mp hp

lemma titleCaseAux_nil : titleCaseAux [] = [] := by
  simp [titleCaseAux]

lemma titleCaseAux_cons (c : Char) (cs : List Char) :
    titleCaseAux (c :: cs) =
      if isWordChar c then
        c.toUpper :: ((cs.takeWhile (fun x => !x.isWhitespace)).map Char.toLower
          ++ titleCaseAux (cs.dropWhile (fun x => !x.isWhitespace)))
      else c :: titleCaseAux cs := by
  rw [titleCaseAux]

lemma titleCaseAux_append_ws :
    ∀ (n : Nat) (l1 l2 : List Char), l1.length ≤ n →
      titleCaseAux (l1 ++ ' ' :: l2) =
        titleCaseAux l1 ++ ' ' :: titleCaseAux l2 := by
  intro n
  induction n with
  | zero =>
    intro l1 l2 h
    have h0 : l1 = [] := List.eq_nil_of_length_eq_zero (Nat.le_zero.mp h)
    subst h0
    rw [List.nil_append, titleCaseAux_cons, if_neg (by simp [isWordChar]),
      titleCaseAux_nil]
    rfl
  | succ n ih =>
    intro l1 l2 h
    cases l1 with
    | nil =>
      rw [List.nil_append, titleCaseAux_cons, if_neg (by simp [isWordChar]),
        titleCaseAux_nil]
      rfl
    | cons c cs =>
      simp only [List.length_cons, Nat.succ_le_succ_iff] at h
      rw [List.cons_append, titleCaseAux_cons]
      by_cases hw : isWordChar c = true
      · rw [if_pos hw]
        conv_rhs => rw [titleCaseAux_cons, if_pos hw]
        cases hd : cs.dropWhile (fun x => !x.isWhitespace) with
        | nil =>
          have hall : ∀ x ∈ cs, (!x.isWhitespace) = true := by
            rw [← List.dropWhile_eq_nil_iff]
            exact hd
          rw [takeWhile_append_all _ cs (' ' :: l2) hall,
            dropWhile_append_all _ cs (' ' :: l2) hall]
          rw [List.takeWhile_cons, if_neg (by simp)]
          rw [List.dropWhile_cons, if_neg (by simp)]
          rw [takeWhile_all _ cs hall, titleCaseAux_nil]
          rw [titleCaseAux_cons, if_neg (by simp [isWordChar])]
          simp
        | cons w rest =>
          have hsplit := List.takeWhile_append_dropWhile
            (p := fun x => !x.isWhitespace) (l := cs)
          have htw : ∀ x ∈ cs.takeWhile (fun x => !x.isWhitespace),
              (!x.isWhitespace) = true :=
            fun x hx => List.mem_takeWhile_imp (p := fun y : Char => !y.isWhitespace) hx
          have hpw : (!w.isWhitespace) = false :=
            head_dropWhile_false _ cs w rest hd
          have htake : (cs ++ ' ' :: l2).takeWhile (fun x => !x.isWhitespace) =
              cs.takeWhile (fun x => !x.isWhitespace) := by
            conv_lhs => rw [← hsplit, hd]
            rw [List.append_assoc,
              takeWhile_append_all _ _ _ htw,
              List.cons_append, List.takeWhile_cons, if_neg (by simp [hpw])]
            simp
          have hdrop : (cs ++ ' ' :: l2).dropWhile (fun x => !x.isWhitespace) =
              (w :: rest) ++ ' ' :: l2 := by
            conv_lhs => rw [← hsplit, hd]
            rw [List.append_assoc,
              dropWhile_append_all _ _ _ htw,
              List.cons_append, List.dropWhile_cons, if_neg (by simp [hpw])]
          rw [htake, hdrop]
          have hlen : (w :: rest).length ≤ n := by
            have h1 : (cs.dropWhile (fun x => !x.isWhitespace)).length ≤ cs.length :=
              (List.dropWhile_sublist _).length_le
            rw [hd] at h1
            simp only [List.length_cons] at h1 ⊢
            omega
          rw [ih (w :: rest) l2 hlen]
          simp
      · rw [if_neg hw]
        conv_rhs => rw [titleCaseAux_cons, if_neg hw]
        rw [ih cs l2 h]
        simp

lemma titleCaseAux_token (c : Char) (cs : List Char)
    (hw : isWordChar c = true) (hcs : ∀ x ∈ cs, x.isWhitespace = false) :
    titleCaseAux (c :: cs) = c.toUpper :: cs.map Char.toLower := by
  rw [titleCaseAux_cons, if_pos hw]
  have hall : ∀ x ∈ cs, (!x.isWhitespace) = true := by
    intro x hx
    simp [hcs x hx]
  rw [takeWhile_all _ cs hall, dropWhile_all _ cs hall, titleCaseAux_nil]
  simp

lemma titleCaseAux_nonword (c : Char) (cs : List Char)
    (hw : isWordChar c = false) :
    titleCaseAux (c :: cs) = c :: titleCaseAux cs := by
  rw [titleCaseAux_cons, if_neg (by simp [hw])]

/-! ## Claim theorems -/

/-- C1: the claim states that for `["b.txt", "a.txt", "a.txt"]` (same name,
different paths) under `conflictStrategy = "rename"` the second `"a.txt"`
becomes `"a_1.txt"` with `renamedFiles = 1` and `skippedFiles = 0`, because
every admitted name — including one equal to the file's original name — is
visible to later conflict checks.  The code does not do this:
`generateRenamePlan` adds a resolved name to `existingNames` only inside the
`resolution.filename !== file.name` branch, so the unchanged first
`"a.txt"` is never recorded and the second `"a.txt"` sees an empty set.
This theorem evaluates the code at the claim's input: no rename happens at
all. -/
theorem claim1_code_eval :
    (generateRenamePlan demoEngine emptyEnv
        [⟨"b.txt", "dir/b.txt", "b.txt"⟩, ⟨"a.txt", "dir1/a.txt", "a.txt"⟩,
          ⟨"a.txt", "dir2/a.txt", "a.txt"⟩]
        ⟨false, none, none, none, none, some ConflictStrategy.rename⟩).renamedFiles
        = 0 ∧
    (generateRenamePlan demoEngine emptyEnv
        [⟨"b.txt", "dir/b.txt", "b.txt"⟩, ⟨"a.txt", "dir1/a.txt", "a.txt"⟩,
          ⟨"a.txt", "dir2/a.txt", "a.txt"⟩]
        ⟨false, none, none, none, none, some ConflictStrategy.rename⟩).skippedFiles
        = 0 ∧
    (generateRenamePlan demoEngine emptyEnv
        [⟨"b.txt", "dir/b.txt", "b.txt"⟩, ⟨"a.txt", "dir1/a.txt", "a.txt"⟩,
          ⟨"a.txt", "dir2/a.txt", "a.txt"⟩]
        ⟨false, none, none, none, none, some ConflictStrategy.rename⟩).renames
        = [] := by
  refine ⟨by decide, by decide, by decide⟩

/-- C2 (counterexample): under the `overwrite` strategy two files whose
transformed names collide are both pushed with the same `newName`, so the
pairwise-distinctness invariant fails for that strategy. -/
theorem claim2_counterexample :
    ¬ (((generateRenamePlan demoEngine emptyEnv
        [⟨"b.txt", "d/b.txt", "b.txt"⟩, ⟨"c.txt", "d/c.txt", "c.txt"⟩]
        ⟨false, none, none, none, some [("b", "a"), ("c", "a")],
          some ConflictStrategy.overwrite⟩).renames.map
        RenameEntry.newName).Nodup) := by
  have h : (generateRenamePlan demoEngine emptyEnv
      [⟨"b.txt", "d/b.txt", "b.txt"⟩, ⟨"c.txt", "d/c.txt", "c.txt"⟩]
      ⟨false, none, none, none, some [("b", "a"), ("c", "a")],
        some ConflictStrategy.overwrite⟩).renames.map RenameEntry.newName =
      ["a.txt", "a.txt"] := by decide
  rw [h]
  decide

/-- C2 (amended): for every input file list, rule configuration, regex
engine and filesystem, under the `rename` or `skip` strategy (and with the
strategy unspecified, which defaults to `rename`) — that is, any strategy
other than `overwrite` — the `newName` values of the plan's `renames` are
pairwise distinct. -/
theorem claim2_amended_nodup :
    ∀ (E : RegexEngine) (env : FsEnv) (files : List FileRec)
      (options : PlanOptions),
      options.conflictStrategy ≠ some ConflictStrategy.overwrite →
      ((generateRenamePlan E env files options).renames.map
        RenameEntry.newName).Nodup := by
  intro E env files options hstrat
  unfold generateRenamePlan
  have h := foldl_planStep_nodup E env options hstrat files
    (planInit files, (∅ : Finset String))
    (by simp [planNames, planInit]) (by simp [planNames, planInit])
  simpa [planNames] using h

/-- Witness for C2 (amended) at a concrete input (the counterexample's file
list, with strategy `rename` instead of `overwrite`). -/
theorem claim2_amended_nodup_witness :
    ((generateRenamePlan demoEngine emptyEnv
        [⟨"b.txt", "d/b.txt", "b.txt"⟩, ⟨"c.txt", "d/c.txt", "c.txt"⟩]
        ⟨false, none, none, none, some [("b", "a"), ("c", "a")],
          some ConflictStrategy.rename⟩).renames.map
        RenameEntry.newName).Nodup :=
  claim2_amended_nodup demoEngine emptyEnv
    [⟨"b.txt", "d/b.txt", "b.txt"⟩, ⟨"c.txt", "d/c.txt", "c.txt"⟩]
    ⟨false, none, none, none, some [("b", "a"), ("c", "a")],
      some ConflictStrategy.rename⟩ (by decide)

/-- C3 (counterexample): the claim says the rule-application transform never
throws and that an uncompilable pattern is skipped.  That is true of
`regexReplace` but not of `renameRule`: its literal-substitution stage
(src/index.js line 66) compiles each old-string with no `try`/`catch`, so
the invalid pattern `"("` makes `renameRule` propagate the error. -/
theorem claim3_counterexample :
    renameRule demoEngine "a.txt" ⟨some [("(", "x")], none, none, none, none⟩ =
      Except.error "Invalid regular expression: /(/: Unterminated group" := by
  rfl

/-- C3 (amended): `regexReplace` is total — a pattern that fails to compile
is skipped (after a warning) and processing continues with the remaining
patterns, while a pattern that compiles is applied and processing continues;
`renameRule`'s literal-substitution stage instead turns the first
uncompilable pattern into an error propagated to the caller. -/
theorem claim3_amended :
    (∀ (E : RegexEngine) (filename p r : String)
        (rest : List (String × String)),
        E.compile p = none →
        regexReplace E filename ((p, r) :: rest) =
          regexReplace E filename rest) ∧
    (∀ (E : RegexEngine) (filename p r : String)
        (rest : List (String × String)) (g : String → String → String),
        E.compile p = some g →
        regexReplace E filename ((p, r) :: rest) =
          regexReplace E (g r filename) rest) ∧
    (∀ (E : RegexEngine) (filename p r : String)
        (rest : List (String × String)),
        E.compile p = none →
        applyReplaceAll E filename ((p, r) :: rest) =
          Except.error
            ("Invalid regular expression: /" ++ p ++ "/: Unterminated group")) := by
  refine ⟨?_, ?_, ?_⟩
  · intro E filename p r rest h
    simp [regexReplace, h]
  · intro E filename p r rest g h
    simp [regexReplace, h]
  · intro E filename p r rest h
    simp [applyReplaceAll, h]

/-- Witness for C3 (amended): the uncompilable pattern `"("` is skipped by
`regexReplace` with processing continuing, and makes `applyReplaceAll`
error. -/
theorem claim3_amended_witness :
    (regexReplace demoEngine "a.txt" [("(", "x"), ("a", "b")] =
      regexReplace demoEngine "a.txt" [("a", "b")]) ∧
    (applyReplaceAll demoEngine "a.txt" [("(", "x")] =
      Except.error
        ("Invalid regular expression: /" ++ "(" ++ "/: Unterminated group")) :=
  ⟨claim3_amended.1 demoEngine "a.txt" "(" "x" [("a", "b")] rfl,
   claim3_amended.2.2 demoEngine "a.txt" "(" "x" [] rfl⟩

/-- C5: for every candidate present in `seenNames`, `resolveConflict` with
strategy `rename` returns the candidate's base name with `_k` appended
before the extension for the smallest `k ≥ 1` whose synthesized name is
absent, marked as a conflict and admitted; the strategy argument defaults to
`rename` when unspecified; and a candidate not in `seenNames` is returned
unchanged with no conflict under every strategy. -/
theorem claim5_resolveConflict_rename :
    (∀ (filename : String) (s : Finset String), filename ∈ s →
        ∃ k, 1 ≤ k ∧
          resolveConflict filename s ConflictStrategy.rename =
            ⟨synthName (splitExt filename).1 (splitExt filename).2 k,
              true, true⟩ ∧
          synthName (splitExt filename).1 (splitExt filename).2 k ∉ s ∧
          ∀ j, 1 ≤ j → j < k →
            synthName (splitExt filename).1 (splitExt filename).2 j ∈ s) ∧
    (∀ (filename : String) (s : Finset String),
        resolveConflictOpt filename s none =
          resolveConflict filename s ConflictStrategy.rename) ∧
    (∀ (filename : String) (s : Finset String) (strat : ConflictStrategy),
        filename ∉ s →
        resolveConflict filename s strat = ⟨filename, false, true⟩) := by
  refine ⟨fun filename s h => ?_, fun _ _ => rfl, fun filename s strat h => ?_⟩
  · obtain ⟨k, hle, heq, hnot, hmin⟩ := resolveConflict_rename_mem filename s h
    exact ⟨k, hle, heq, hnot, hmin⟩
  · unfold resolveConflict
    rw [if_neg h]

/-- Witness for C5 at the spec's example: `seenNames = {"a.txt", "a_1.txt"}`
and candidate `"a.txt"` yield `"a_2.txt"`, admitted. -/
theorem claim5_witness :
    ("a.txt" ∈ ({"a.txt", "a_1.txt"} : Finset String)) ∧
    (∃ k, 1 ≤ k ∧
      resolveConflict "a.txt" {"a.txt", "a_1.txt"} ConflictStrategy.rename =
        ⟨synthName (splitExt "a.txt").1 (splitExt "a.txt").2 k, true, true⟩ ∧
      synthName (splitExt "a.txt").1 (splitExt "a.txt").2 k ∉
        ({"a.txt", "a_1.txt"} : Finset String) ∧
      ∀ j, 1 ≤ j → j < k →
        synthName (splitExt "a.txt").1 (splitExt "a.txt").2 j ∈
          ({"a.txt", "a_1.txt"} : Finset String)) ∧
    resolveConflict "a.txt" {"a.txt", "a_1.txt"} ConflictStrategy.rename =
      ⟨"a_2.txt", true, true⟩ :=
  ⟨by decide,
   claim5_resolveConflict_rename.1 "a.txt" {"a.txt", "a_1.txt"} (by decide),
   by decide⟩

/-- C6: for every candidate present in `seenNames`, `resolveConflict` with
strategy `skip` returns the candidate not admitted (`conflict = true`,
`resolved = false`); `generateRenamePlan` then counts the file in
`skippedFiles` only, adds it neither to `renames` nor to the seen-name set,
and continues with the remaining files. -/
theorem claim6_skip :
    (∀ (filename : String) (s : Finset String), filename ∈ s →
        resolveConflict filename s ConflictStrategy.skip =
          ⟨filename, true, false⟩) ∧
    (∀ (E : RegexEngine) (env : FsEnv) (options : PlanOptions)
        (st : Plan × Finset String) (file : FileRec) (rest : List FileRec)
        (newName : String),
        options.conflictStrategy = some ConflictStrategy.skip →
        computeNewName E env options file = Except.ok newName →
        newName ∈ st.2 →
        (file :: rest).foldl (planStep E env options) st =
          rest.foldl (planStep E env options)
            ({ st.1 with skippedFiles := st.1.skippedFiles + 1 }, st.2)) := by
  constructor
  · intro filename s h
    unfold resolveConflict
    rw [if_pos h]
  · intro E env options st file rest newName hstrat hcn hmem
    rw [List.foldl_cons, planStep_skip E env options st file newName hstrat hcn hmem]

/-- Witness for C6 at the spec's example: candidate `"a.txt"` against
`seenNames = {"a.txt"}` under `skip` is not admitted, and the planning step
only increments `skippedFiles`. -/
theorem claim6_witness :
    (resolveConflict "a.txt" {"a.txt"} ConflictStrategy.skip =
      ⟨"a.txt", true, false⟩) ∧
    ([(⟨"a.txt", "d/a.txt", "a.txt"⟩ : FileRec)].foldl
        (planStep demoEngine emptyEnv
          ⟨false, none, none, none, none, some ConflictStrategy.skip⟩)
        (planInit [⟨"a.txt", "d/a.txt", "a.txt"⟩], {"a.txt"}) =
      [].foldl
        (planStep demoEngine emptyEnv
          ⟨false, none, none, none, none, some ConflictStrategy.skip⟩)
        ({ planInit [⟨"a.txt", "d/a.txt", "a.txt"⟩] with
            skippedFiles :=
              (planInit [⟨"a.txt", "d/a.txt", "a.txt"⟩]).skippedFiles + 1 },
          {"a.txt"})) :=
  ⟨claim6_skip.1 "a.txt" {"a.txt"} (by decide),
   claim6_skip.2 demoEngine emptyEnv
     ⟨false, none, none, none, none, some ConflictStrategy.skip⟩
     (planInit [⟨"a.txt", "d/a.txt", "a.txt"⟩], {"a.txt"})
     ⟨"a.txt", "d/a.txt", "a.txt"⟩ [] "a.txt" rfl rfl (by decide)⟩

/-- C7: for every input, the plan satisfies
`renamedFiles + skippedFiles + errorFiles ≤ originalFiles`; and a file whose
transformed and conflict-resolved name equals its original name leaves the
whole planning state unchanged — no counter is incremented and nothing is
appended to `renames`. -/
theorem claim7_counters :
    (∀ (E : RegexEngine) (env : FsEnv) (files : List FileRec)
        (options : PlanOptions),
        (generateRenamePlan E env files options).renamedFiles +
          (generateRenamePlan E env files options).skippedFiles +
          (generateRenamePlan E env files options).errorFiles ≤
          (generateRenamePlan E env files options).originalFiles) ∧
    (∀ (E : RegexEngine) (env : FsEnv) (options : PlanOptions)
        (st : Plan × Finset String) (file : FileRec) (newName : String),
        computeNewName E env options file = Except.ok newName →
        (resolveConflictOpt newName st.2 options.conflictStrategy).resolved
          = true →
        (resolveConflictOpt newName st.2 options.conflictStrategy).filename
          = file.name →
        planStep E env options st file = st) := by
  constructor
  · intro E env files options
    obtain ⟨h1, h2⟩ := foldl_planStep_counters E env options files
      (planInit files, (∅ : Finset String))
    unfold generateRenamePlan
    rw [h2]
    simp only [planInit] at h1 ⊢
    omega
  · exact planStep_noop

/-- Witness for C7 at a concrete input: a one-file batch whose transform is
the identity produces a plan with all counters zero, and the corresponding
planning step is a no-op. -/
theorem claim7_witness :
    ((generateRenamePlan demoEngine emptyEnv [⟨"a.txt", "d/a.txt", "a.txt"⟩]
        ⟨false, none, none, none, none, some ConflictStrategy.rename⟩).renamedFiles +
      (generateRenamePlan demoEngine emptyEnv [⟨"a.txt", "d/a.txt", "a.txt"⟩]
        ⟨false, none, none, none, none, some ConflictStrategy.rename⟩).skippedFiles +
      (generateRenamePlan demoEngine emptyEnv [⟨"a.txt", "d/a.txt", "a.txt"⟩]
        ⟨false, none, none, none, none, some ConflictStrategy.rename⟩).errorFiles ≤
      (generateRenamePlan demoEngine emptyEnv [⟨"a.txt", "d/a.txt", "a.txt"⟩]
        ⟨false, none, none, none, none, some ConflictStrategy.rename⟩).originalFiles) ∧
    (planStep demoEngine emptyEnv
        ⟨false, none, none, none, none, some ConflictStrategy.rename⟩
        (planInit [⟨"a.txt", "d/a.txt", "a.txt"⟩], (∅ : Finset String))
        ⟨"a.txt", "d/a.txt", "a.txt"⟩ =
      (planInit [⟨"a.txt", "d/a.txt", "a.txt"⟩], (∅ : Finset String))) :=
  ⟨claim7_counters.1 demoEngine emptyEnv [⟨"a.txt", "d/a.txt", "a.txt"⟩]
      ⟨false, none, none, none, none, some ConflictStrategy.rename⟩,
   claim7_counters.2 demoEngine emptyEnv
      ⟨false, none, none, none, none, some ConflictStrategy.rename⟩
      (planInit [⟨"a.txt", "d/a.txt", "a.txt"⟩], (∅ : Finset String))
      ⟨"a.txt", "d/a.txt", "a.txt"⟩ "a.txt" rfl (by decide) (by decide)⟩

/-- C8: applying the rule transform with an empty rule configuration (no
replace, prefix, suffix, sequence, or case field) returns any filename
unchanged. -/
theorem claim8_identity :
    ∀ (E : RegexEngine) (f : String), renameRule E f emptyRule = Except.ok f := by
  intro E f
  rfl

/-! ## Claim C4: title case -/

/-- C4 (counterexample): the claim says a punctuation character such as `.`
starts a new token whose first letter is uppercased, predicting
`"a.txt" ↦ "A.Txt"`.  The source regex `/\w\S*\/g` extends a token across
punctuation, so the code produces `"A.txt"`. -/
theorem claim4_counterexample :
    renameRule demoEngine "a.txt" ⟨none, none, none, none, some CaseMode.title⟩ =
      Except.ok "A.txt" ∧ ("A.txt" : String) ≠ "A.Txt" := by
  constructor
  · show Except.ok (titleCase "a.txt") = Except.ok "A.txt"
    unfold titleCase
    rw [show "a.txt".data = 'a' :: ['.', 't', 'x', 't'] from rfl]
    rw [titleCaseAux_token 'a' ['.', 't', 'x', 't'] (by decide) (by decide)]
    rfl
  · decide

/-- C4 (amended): the title mode transforms the whole string (extension
included); a token starts at a word character and extends over all
following non-whitespace characters — punctuation does not end it — with
its first character uppercased and the remainder lowercased; whitespace
separates tokens; a non-word character outside a token is kept and scanning
continues after it. -/
theorem claim4_amended :
    (∀ l1 l2 : List Char,
        titleCaseAux (l1 ++ ' ' :: l2) =
          titleCaseAux l1 ++ ' ' :: titleCaseAux l2) ∧
    (∀ (c : Char) (cs : List Char), isWordChar c = true →
        (∀ x ∈ cs, x.isWhitespace = false) →
        titleCaseAux (c :: cs) = c.toUpper :: cs.map Char.toLower) ∧
    (∀ (c : Char) (cs : List Char), isWordChar c = false →
        titleCaseAux (c :: cs) = c :: titleCaseAux cs) ∧
    (∀ (E : RegexEngine) (s : String),
        renameRule E s ⟨none, none, none, none, some CaseMode.title⟩ =
          Except.ok (titleCase s)) :=
  ⟨fun l1 l2 => titleCaseAux_append_ws l1.length l1 l2 (Nat.le_refl _),
   titleCaseAux_token, titleCaseAux_nonword, fun _ _ => rfl⟩

/-- Witness for C4 (amended) at concrete inputs: the single token
`"a.txt"` (punctuation included) and a leading non-word character. -/
theorem claim4_amended_witness :
    titleCaseAux ('a' :: ['.', 't', 'x', 't']) =
      'a'.toUpper :: ['.', 't', 'x', 't'].map Char.toLower ∧
    titleCaseAux ('-' :: ['a']) = '-' :: titleCaseAux ['a'] :=
  ⟨claim4_amended.2.1 'a' ['.', 't', 'x', 't'] (by decide) (by decide),
   claim4_amended.2.2.1 '-' ['a'] (by decide)⟩

/-! ## Claim C10: date formatting -/

/-- Unfolded form of `formatDate` (the `let`s of the source zeta-reduce). -/
lemma formatDate_eq (d : JsDate) (format : String) :
    formatDate d format =
      jsReplaceFirst
        (jsReplaceFirst
          (jsReplaceFirst
            (jsReplaceFirst
              (jsReplaceFirst
                (jsReplaceFirst
                  (jsReplaceFirst format "YYYY" (Nat.repr d.year))
                  "YY" (sliceLast2 (Nat.repr d.year)))
                "MM" (padStart (Nat.repr d.month) 2 '0'))
              "DD" (padStart (Nat.repr d.day) 2 '0'))
            "HH" (padStart (Nat.repr d.hour) 2 '0'))
          "mm" (padStart (Nat.repr d.minute) 2 '0'))
        "ss" (padStart (Nat.repr d.second) 2 '0') := rfl

lemma replaceFirstAux_cons (pat repl : List Char) (c : Char) (cs : List Char) :
    replaceFirstAux pat repl (c :: cs) =
      if pat.isPrefixOf (c :: cs) then repl ++ (c :: cs).drop pat.length
      else c :: replaceFirstAux pat repl cs := rfl

lemma replaceFirstAux_no_match (pat repl : List Char) :
    ∀ s : List Char,
      (∀ i, i ≤ s.length → pat.isPrefixOf (List.drop i s) = false) →
      replaceFirstAux pat repl s = s := by
  intro s
  induction s with
  | nil => intro _; rfl
  | cons a t ih =>
    intro h
    have h0 := h 0 (by omega)
    rw [List.drop_zero] at h0
    rw [replaceFirstAux_cons, if_neg (by simp [h0])]
    rw [ih (fun i hi => by
      have h2 := h (i + 1) (by simp only [List.length_cons]; omega)
      rwa [List.drop_succ_cons] at h2)]

lemma jsReplaceFirst_no_match (s pat repl : String)
    (hne : pat.data.isEmpty = false)
    (h : ∀ i, i ≤ s.data.length →
      pat.data.isPrefixOf (List.drop i s.data) = false) :
    jsReplaceFirst s pat repl = s := by
  unfold jsReplaceFirst
  rw [if_neg (by simp [hne])]
  rw [replaceFirstAux_no_match pat.data repl.data s.data h]

lemma isPrefixOf_append_self (a b : List Char) :
    a.isPrefixOf (a ++ b) = true := by
  induction a with
  | nil => simp
  | cons c t ih =>
    rw [List.cons_append, List.isPrefixOf_cons₂]
    simp [ih]

lemma drop_length_append (a b : List Char) : (a ++ b).drop a.length = b := by
  induction a with
  | nil => rfl
  | cons c t ih =>
    rw [List.cons_append, List.length_cons, List.drop_succ_cons, ih]

lemma jsReplaceFirst_leftMatch (a b v : String)
    (hne : a.data.isEmpty = false) :
    jsReplaceFirst (a ++ b) a v = v ++ b := by
  unfold jsReplaceFirst
  rw [if_neg (by simp [hne])]
  rw [String.data_append]
  rw [replaceFirstAux_patMatch a.data v.data (a.data ++ b.data)
    (fun hnil => by rw [hnil] at hne; simp at hne)
    (isPrefixOf_append_self _ _)]
  rw [drop_length_append]
  rfl

lemma jsReplaceFirst_self (a v : String) (hne : a.data.isEmpty = false) :
    jsReplaceFirst a a v = v := by
  have h := jsReplaceFirst_leftMatch a "" v hne
  rw [String.append_empty, String.append_empty] at h
  exact h

lemma not_mem_append_str (c : Char) (a b : String) (ha : c ∉ a.data)
    (hb : c ∉ b.data) : c ∉ (a ++ b).data := by
  rw [String.data_append]
  intro h
  rcases List.mem_append.mp h with h1 | h1
  · exact ha h1
  · exact hb h1

lemma not_mem_pad_concat (c : Char) (n : Nat) (b : String)
    (hc : c.isDigit = false) (hb : c ∉ b.data) :
    c ∉ (padStart (Nat.repr n) 2 '0' ++ b).data := by
  intro h
  rw [String.data_append] at h
  rcases List.mem_append.mp h with h1 | h1
  · exact not_mem_padStart_repr c hc n 2 h1
  · exact hb h1

lemma not_mem_slice_concat (c : Char) (n : Nat) (b : String)
    (hc : c.isDigit = false) (hb : c ∉ b.data) :
    c ∉ (sliceLast2 (Nat.repr n) ++ b).data := by
  intro h
  rw [String.data_append] at h
  rcases List.mem_append.mp h with h1 | h1
  · exact not_mem_sliceLast2_repr c hc n h1
  · exact hb h1

lemma formatDate_YYYY (d : JsDate) :
    formatDate d "YYYY" = Nat.repr d.year := by
  rw [formatDate_eq]
  rw [jsReplaceFirst_self "YYYY" _ (by decide)]
  rw [jsReplaceFirst_not_mem _ "YY" _ 'Y' "Y".data rfl
    (not_mem_repr 'Y' (by decide) d.year)]
  rw [jsReplaceFirst_not_mem _ "MM" _ 'M' "M".data rfl
    (not_mem_repr 'M' (by decide) d.year)]
  rw [jsReplaceFirst_not_mem _ "DD" _ 'D' "D".data rfl
    (not_mem_repr 'D' (by decide) d.year)]
  rw [jsReplaceFirst_not_mem _ "HH" _ 'H' "H".data rfl
    (not_mem_repr 'H' (by decide) d.year)]
  rw [jsReplaceFirst_not_mem _ "mm" _ 'm' "m".data rfl
    (not_mem_repr 'm' (by decide) d.year)]
  rw [jsReplaceFirst_not_mem _ "ss" _ 's' "s".data rfl
    (not_mem_repr 's' (by decide) d.year)]

lemma formatDate_YY_YY (d : JsDate) :
    formatDate d "YY-YY" = sliceLast2 (Nat.repr d.year) ++ "-YY" := by
  rw [formatDate_eq]
  rw [jsReplaceFirst_no_match "YY-YY" "YYYY" _ (by decide) (by decide)]
  rw [show ("YY-YY" : String) = "YY" ++ "-YY" from rfl]
  rw [jsReplaceFirst_leftMatch "YY" "-YY" _ (by decide)]
  rw [jsReplaceFirst_not_mem _ "MM" _ 'M' "M".data rfl
    (not_mem_slice_concat 'M' d.year "-YY" (by decide) (by decide))]
  rw [jsReplaceFirst_not_mem _ "DD" _ 'D' "D".data rfl
    (not_mem_slice_concat 'D' d.year "-YY" (by decide) (by decide))]
  rw [jsReplaceFirst_not_mem _ "HH" _ 'H' "H".data rfl
    (not_mem_slice_concat 'H' d.year "-YY" (by decide) (by decide))]
  rw [jsReplaceFirst_not_mem _ "mm" _ 'm' "m".data rfl
    (not_mem_slice_concat 'm' d.year "-YY" (by decide) (by decide))]
  rw [jsReplaceFirst_not_mem _ "ss" _ 's' "s".data rfl
    (not_mem_slice_concat 's' d.year "-YY" (by decide) (by decide))]

lemma formatDate_MM_MM (d : JsDate) :
    formatDate d "MM-MM" = padStart (Nat.repr d.month) 2 '0' ++ "-MM" := by
  rw [formatDate_eq]
  rw [jsReplaceFirst_not_mem _ "YYYY" _ 'Y' "YYY".data rfl (by decide)]
  rw [jsReplaceFirst_not_mem _ "YY" _ 'Y' "Y".data rfl (by decide)]
  rw [show ("MM-MM" : String) = "MM" ++ "-MM" from rfl]
  rw [jsReplaceFirst_leftMatch "MM" "-MM" _ (by decide)]
  rw [jsReplaceFirst_not_mem _ "DD" _ 'D' "D".data rfl
    (not_mem_pad_concat 'D' d.month "-MM" (by decide) (by decide))]
  rw [jsReplaceFirst_not_mem _ "HH" _ 'H' "H".data rfl
    (not_mem_pad_concat 'H' d.month "-MM" (by decide) (by decide))]
  rw [jsReplaceFirst_not_mem _ "mm" _ 'm' "m".data rfl
    (not_mem_pad_concat 'm' d.month "-MM" (by decide) (by decide))]
  rw [jsReplaceFirst_not_mem _ "ss" _ 's' "s".data rfl
    (not_mem_pad_concat 's' d.month "-MM" (by decide) (by decide))]

lemma formatDate_DD_DD (d : JsDate) :
    formatDate d "DD-DD" = padStart (Nat.repr d.day) 2 '0' ++ "-DD" := by
  rw [formatDate_eq]
  rw [jsReplaceFirst_not_mem _ "YYYY" _ 'Y' "YYY".data rfl (by decide)]
  rw [jsReplaceFirst_not_mem _ "YY" _ 'Y' "Y".data rfl (by decide)]
  rw [jsReplaceFirst_not_mem _ "MM" _ 'M' "M".data rfl (by decide)]
  rw [show ("DD-DD" : String) = "DD" ++ "-DD" from rfl]
  rw [jsReplaceFirst_leftMatch "DD" "-DD" _ (by decide)]
  rw [jsReplaceFirst_not_mem _ "HH" _ 'H' "H".data rfl
    (not_mem_pad_concat 'H' d.day "-DD" (by decide) (by decide))]
  rw [jsReplaceFirst_not_mem _ "mm" _ 'm' "m".data rfl
    (not_mem_pad_concat 'm' d.day "-DD" (by decide) (by decide))]
  rw [jsReplaceFirst_not_mem _ "ss" _ 's' "s".data rfl
    (not_mem_pad_concat 's' d.day "-DD" (by decide) (by decide))]

lemma formatDate_HH_HH (d : JsDate) :
    formatDate d "HH-HH" = padStart (Nat.repr d.hour) 2 '0' ++ "-HH" := by
  rw [formatDate_eq]
  rw [jsReplaceFirst_not_mem _ "YYYY" _ 'Y' "YYY".data rfl (by decide)]
  rw [jsReplaceFirst_not_mem _ "YY" _ 'Y' "Y".data rfl (by decide)]
  rw [jsReplaceFirst_not_mem _ "MM" _ 'M' "M".data rfl (by decide)]
  rw [jsReplaceFirst_not_mem _ "DD" _ 'D' "D".data rfl (by decide)]
  rw [show ("HH-HH" : String) = "HH" ++ "-HH" from rfl]
  rw [jsReplaceFirst_leftMatch "HH" "-HH" _ (by decide)]
  rw [jsReplaceFirst_not_mem _ "mm" _ 'm' "m".data rfl
    (not_mem_pad_concat 'm' d.hour "-HH" (by decide) (by decide))]
  rw [jsReplaceFirst_not_mem _ "ss" _ 's' "s".data rfl
    (not_mem_pad_concat 's' d.hour "-HH" (by decide) (by decide))]

lemma formatDate_mm_mm (d : JsDate) :
    formatDate d "mm-mm" = padStart (Nat.repr d.minute) 2 '0' ++ "-mm" := by
  rw [formatDate_eq]
  rw [jsReplaceFirst_not_mem _ "YYYY" _ 'Y' "YYY".data rfl (by decide)]
  rw [jsReplaceFirst_not_mem _ "YY" _ 'Y' "Y".data rfl (by decide)]
  rw [jsReplaceFirst_not_mem _ "MM" _ 'M' "M".data rfl (by decide)]
  rw [jsReplaceFirst_not_mem _ "DD" _ 'D' "D".data rfl (by decide)]
  rw [jsReplaceFirst_not_mem _ "HH" _ 'H' "H".data rfl (by decide)]
  rw [show ("mm-mm" : String) = "mm" ++ "-mm" from rfl]
  rw [jsReplaceFirst_leftMatch "mm" "-mm" _ (by decide)]
  rw [jsReplaceFirst_not_mem _ "ss" _ 's' "s".data rfl
    (not_mem_pad_concat 's' d.minute "-mm" (by decide) (by decide))]

lemma formatDate_ss_ss (d : JsDate) :
    formatDate d "ss-ss" = padStart (Nat.repr d.second) 2 '0' ++ "-ss" := by
  rw [formatDate_eq]
  rw [jsReplaceFirst_not_mem _ "YYYY" _ 'Y' "YYY".data rfl (by decide)]
  rw [jsReplaceFirst_not_mem _ "YY" _ 'Y' "Y".data rfl (by decide)]
  rw [jsReplaceFirst_not_mem _ "MM" _ 'M' "M".data rfl (by decide)]
  rw [jsReplaceFirst_not_mem _ "DD" _ 'D' "D".data rfl (by decide)]
  rw [jsReplaceFirst_not_mem _ "HH" _ 'H' "H".data rfl (by decide)]
  rw [jsReplaceFirst_not_mem _ "mm" _ 'm' "m".data rfl (by decide)]
  rw [show ("ss-ss" : String) = "ss" ++ "-ss" from rfl]
  rw [jsReplaceFirst_leftMatch "ss" "-ss" _ (by decide)]

lemma string_append_assoc (a b c : String) : a ++ b ++ c = a ++ (b ++ c) :=
  congrArg String.mk (List.append_assoc a.data b.data c.data)

lemma not_mem_yyyy_chain (c : Char) (n : Nat) (hc : c.isDigit = false)
    (hY : c ≠ 'Y') (hdash : c ≠ '-') :
    c ∉ (Nat.repr n ++ "-" ++ sliceLast2 (Nat.repr n) ++ "YY").data := by
  simp only [String.data_append]
  intro h
  rcases List.mem_append.mp h with h1 | h1
  · rcases List.mem_append.mp h1 with h2 | h2
    · rcases List.mem_append.mp h2 with h3 | h3
      · exact not_mem_repr c hc n h3
      · simp only [List.mem_singleton] at h3
        exact hdash h3
    · exact not_mem_sliceLast2_repr c hc n h2
  · simp only [List.mem_cons, List.not_mem_nil, or_false] at h1
    rcases h1 with h1 | h1 <;> exact hY h1

lemma formatDate_YYYY_YYYY (d : JsDate) :
    formatDate d "YYYY-YYYY" =
      Nat.repr d.year ++ "-" ++ sliceLast2 (Nat.repr d.year) ++ "YY" := by
  rw [formatDate_eq]
  rw [show ("YYYY-YYYY" : String) = "YYYY" ++ "-YYYY" from rfl]
  rw [jsReplaceFirst_leftMatch "YYYY" "-YYYY" _ (by decide)]
  have hYY : jsReplaceFirst (Nat.repr d.year ++ "-YYYY") "YY"
      (sliceLast2 (Nat.repr d.year)) =
      Nat.repr d.year ++ "-" ++ sliceLast2 (Nat.repr d.year) ++ "YY" := by
    unfold jsReplaceFirst
    rw [if_neg (by decide)]
    rw [String.data_append]
    rw [replaceFirstAux_append_left 'Y' "Y".data _ (Nat.repr d.year).data
      "-YYYY".data (not_mem_repr 'Y' (by decide) d.year)]
    rw [show "-YYYY".data = '-' :: "YYYY".data from rfl]
    rw [replaceFirstAux_cons, if_neg (by decide)]
    rw [replaceFirstAux_patMatch "YY".data _ "YYYY".data (by decide) (by decide)]
    rw [string_append_assoc, string_append_assoc]
    rfl
  rw [hYY]
  rw [jsReplaceFirst_not_mem _ "MM" _ 'M' "M".data rfl
    (not_mem_yyyy_chain 'M' d.year (by decide) (by decide) (by decide))]
  rw [jsReplaceFirst_not_mem _ "DD" _ 'D' "D".data rfl
    (not_mem_yyyy_chain 'D' d.year (by decide) (by decide) (by decide))]
  rw [jsReplaceFirst_not_mem _ "HH" _ 'H' "H".data rfl
    (not_mem_yyyy_chain 'H' d.year (by decide) (by decide) (by decide))]
  rw [jsReplaceFirst_not_mem _ "mm" _ 'm' "m".data rfl
    (not_mem_yyyy_chain 'm' d.year (by decide) (by decide) (by decide))]
  rw [jsReplaceFirst_not_mem _ "ss" _ 's' "s".data rfl
    (not_mem_yyyy_chain 's' d.year (by decide) (by decide) (by decide))]

/-- C10 (counterexample): the claim predicts that a format containing a
token twice keeps the second occurrence as a literal; for `"YYYY-YYYY"` the
code instead rewrites the second `YYYY` through the subsequent `YY`
substitution. -/
theorem claim10_counterexample :
    formatDate ⟨2026, 2, 11, 0, 0, 0, 0⟩ "YYYY-YYYY" = "2026-26YY" ∧
    ("2026-26YY" : String) ≠ "2026-YYYY" := by
  exact ⟨by decide, by decide⟩

/-- C10 (amended): each token is substituted at most once, replacing the
first occurrence of the token in the current partially substituted string
(tokens applied in order `YYYY, YY, MM, DD, HH, mm, ss`, so `YYYY` before
`YY`); a format containing `YY`, `MM`, `DD`, `HH`, `mm` or `ss` twice keeps
the second occurrence as a literal, but a second `YYYY` is partially
rewritten by the later `YY` substitution
(`"YYYY-YYYY" ↦ year ++ "-" ++ year.slice(-2) ++ "YY"`). -/
theorem claim10_amended : ∀ d : JsDate,
    formatDate d "YYYY" = Nat.repr d.year ∧
    formatDate d "YY-YY" = sliceLast2 (Nat.repr d.year) ++ "-YY" ∧
    formatDate d "MM-MM" = padStart (Nat.repr d.month) 2 '0' ++ "-MM" ∧
    formatDate d "DD-DD" = padStart (Nat.repr d.day) 2 '0' ++ "-DD" ∧
    formatDate d "HH-HH" = padStart (Nat.repr d.hour) 2 '0' ++ "-HH" ∧
    formatDate d "mm-mm" = padStart (Nat.repr d.minute) 2 '0' ++ "-mm" ∧
    formatDate d "ss-ss" = padStart (Nat.repr d.second) 2 '0' ++ "-ss" ∧
    formatDate d "YYYY-YYYY" =
      Nat.repr d.year ++ "-" ++ sliceLast2 (Nat.repr d.year) ++ "YY" :=
  fun d =>
    ⟨formatDate_YYYY d, formatDate_YY_YY d, formatDate_MM_MM d,
     formatDate_DD_DD d, formatDate_HH_HH d, formatDate_mm_mm d,
     formatDate_ss_ss d, formatDate_YYYY_YYYY d⟩

/-! ## Claim C9: the sorters mutate in place -/

lemma store_read_set_self (σ : Store) (r : Nat) (x : List FileRec)
    (h : r < σ.length) : Store.read (σ.set r x) r = x := by
  unfold Store.read
  rw [List.get?_eq_getElem?, List.getElem?_set_self h]
  rfl

lemma store_read_set_ne (σ : Store) (r j : Nat) (x : List FileRec)
    (h : j ≠ r) : Store.read (σ.set r x) j = Store.read σ j := by
  unfold Store.read
  rw [List.get?_eq_getElem?, List.getElem?_set_ne (fun hc => h hc.symm),
    ← List.get?_eq_getElem?]

lemma nameLe_trans (desc : Bool) (a b c : FileRec) :
    nameLe desc a b → nameLe desc b c → nameLe desc a c := by
  unfold nameLe
  cases desc <;> simp <;> intro h1 h2
  · exact le_trans h1 h2
  · exact le_trans h2 h1

lemma nameLe_total (desc : Bool) (a b : FileRec) :
    nameLe desc a b || nameLe desc b a := by
  unfold nameLe
  cases desc <;> simp <;> exact le_total _ _

lemma sizeLe_trans (env : FsEnv) (desc : Bool) (a b c : FileRec) :
    sizeLe env desc a b → sizeLe env desc b c → sizeLe env desc a c := by
  unfold sizeLe
  cases desc <;> simp <;> intro h1 h2
  · exact le_trans h1 h2
  · exact le_trans h2 h1

lemma sizeLe_total (env : FsEnv) (desc : Bool) (a b : FileRec) :
    sizeLe env desc a b || sizeLe env desc b a := by
  unfold sizeLe
  cases desc <;> simp <;> exact le_total _ _

lemma dateLe_trans (env : FsEnv) (dt : DateType) (desc : Bool)
    (a b c : FileRec) :
    dateLe env dt desc a b → dateLe env dt desc b c → dateLe env dt desc a c := by
  unfold dateLe
  cases desc <;> simp <;> intro h1 h2
  · exact le_trans h1 h2
  · exact le_trans h2 h1

lemma dateLe_total (env : FsEnv) (dt : DateType) (desc : Bool)
    (a b : FileRec) :
    dateLe env dt desc a b || dateLe env dt desc b a := by
  unfold dateLe
  cases desc <;> simp <;> exact le_total _ _

/-- C9: `sortByName`, `sortByDate`, and `sortBySize` each sort the received
array in place and return that same array object: the returned reference is
the argument reference, the slot it points to now holds the stably sorted
permutation of its previous contents (so the caller's array no longer holds
the pre-sort ordering whenever that ordering was not already sorted), and
every other array is untouched.  The date/size sorters require every `stat`
to succeed and report an error (with no mutation) otherwise. -/
theorem claim9_sort_in_place :
    (∀ (σ : Store) (r : Nat) (desc : Bool), r < σ.length →
        (sortByName σ r desc).2 = r ∧
        (sortByName σ r desc).1.read r =
          (σ.read r).mergeSort (nameLe desc) ∧
        ((sortByName σ r desc).1.read r).Perm (σ.read r) ∧
        ((sortByName σ r desc).1.read r).Pairwise
          (fun a b => nameLe desc a b) ∧
        ∀ j, j ≠ r → (sortByName σ r desc).1.read j = σ.read j) ∧
    (∀ (env : FsEnv) (σ : Store) (r : Nat) (desc : Bool), r < σ.length →
        ((σ.read r).all (fun f => (env f.path).isSome)) = true →
        ∃ σ2, sortBySize env σ r desc = Except.ok (σ2, r) ∧
          σ2.read r = (σ.read r).mergeSort (sizeLe env desc) ∧
          (σ2.read r).Perm (σ.read r) ∧
          (σ2.read r).Pairwise (fun a b => sizeLe env desc a b) ∧
          ∀ j, j ≠ r → σ2.read j = σ.read j) ∧
    (∀ (env : FsEnv) (σ : Store) (r : Nat) (dt : DateType) (desc : Bool),
        r < σ.length →
        ((σ.read r).all (fun f => (env f.path).isSome)) = true →
        ∃ σ2, sortByDate env σ r dt desc = Except.ok (σ2, r) ∧
          σ2.read r = (σ.read r).mergeSort (dateLe env dt desc) ∧
          (σ2.read r).Perm (σ.read r) ∧
          (σ2.read r).Pairwise (fun a b => dateLe env dt desc a b) ∧
          ∀ j, j ≠ r → σ2.read j = σ.read j) := by
  refine ⟨?_, ?_, ?_⟩
  · intro σ r desc h
    unfold sortByName
    refine ⟨rfl, store_read_set_self σ r _ h, ?_, ?_, ?_⟩
    · rw [store_read_set_self σ r _ h]
      exact List.mergeSort_perm _ _
    · rw [store_read_set_self σ r _ h]
      exact List.sorted_mergeSort (nameLe_trans desc) (nameLe_total desc) _
    · intro j hj
      exact store_read_set_ne σ r j _ hj
  · intro env σ r desc h hall
    refine ⟨σ.set r ((Store.read σ r).mergeSort (sizeLe env desc)), ?_,
      store_read_set_self σ r _ h, ?_, ?_, ?_⟩
    · unfold sortBySize
      rw [if_pos hall]
    · rw [store_read_set_self σ r _ h]
      exact List.mergeSort_perm _ _
    · rw [store_read_set_self σ r _ h]
      exact List.sorted_mergeSort (sizeLe_trans env desc)
        (sizeLe_total env desc) _
    · intro j hj
      exact store_read_set_ne σ r j _ hj
  · intro env σ r dt desc h hall
    refine ⟨σ.set r ((Store.read σ r).mergeSort (dateLe env dt desc)), ?_,
      store_read_set_self σ r _ h, ?_, ?_, ?_⟩
    · unfold sortByDate
      rw [if_pos hall]
    · rw [store_read_set_self σ r _ h]
      exact List.mergeSort_perm _ _
    · rw [store_read_set_self σ r _ h]
      exact List.sorted_mergeSort (dateLe_trans env dt desc)
        (dateLe_total env dt desc) _
    · intro j hj
      exact store_read_set_ne σ r j _ hj

/-- Witness for C9 at a concrete store holding one two-element array. -/
theorem claim9_witness :
    (sortByName
        [[⟨"b.txt", "p/b.txt", "b.txt"⟩, ⟨"a.txt", "p/a.txt", "a.txt"⟩]]
        0 false).2 = 0 ∧
    Store.read
        (sortByName
          [[⟨"b.txt", "p/b.txt", "b.txt"⟩, ⟨"a.txt", "p/a.txt", "a.txt"⟩]]
          0 false).1 0 =
      (Store.read
        [[⟨"b.txt", "p/b.txt", "b.txt"⟩, ⟨"a.txt", "p/a.txt", "a.txt"⟩]]
        0).mergeSort (nameLe false) ∧
    (Store.read
        (sortByName
          [[⟨"b.txt", "p/b.txt", "b.txt"⟩, ⟨"a.txt", "p/a.txt", "a.txt"⟩]]
          0 false).1 0).Perm
      (Store.read
        [[⟨"b.txt", "p/b.txt", "b.txt"⟩, ⟨"a.txt", "p/a.txt", "a.txt"⟩]] 0) ∧
    (Store.read
        (sortByName
          [[⟨"b.txt", "p/b.txt", "b.txt"⟩, ⟨"a.txt", "p/a.txt", "a.txt"⟩]]
          0 false).1 0).Pairwise (fun a b => nameLe false a b) ∧
    ∀ j, j ≠ 0 →
      Store.read
          (sortByName
            [[⟨"b.txt", "p/b.txt", "b.txt"⟩, ⟨"a.txt", "p/a.txt", "a.txt"⟩]]
            0 false).1 j =
        Store.read
          [[⟨"b.txt", "p/b.txt", "b.txt"⟩, ⟨"a.txt", "p/a.txt", "a.txt"⟩]] j :=
  claim9_sort_in_place.1
    [[⟨"b.txt", "p/b.txt", "b.txt"⟩, ⟨"a.txt", "p/a.txt", "a.txt"⟩]]
    0 false (by decide)

end FileRenamer
